import Mathlib

/-
  Verification of the portfolio simulation scripts of nkkmd/cultivationdata-net.

  The Python sources are embedded shallowly: machine floats become exact
  rationals (ℚ), numpy array operations become list functions, and the
  implicit global numpy random generator becomes an explicitly threaded
  state.  Each definition's doc comment names the source function or lines
  it embeds.
-/

-- The Batteries rational arithmetic definitions are `irreducible` by
-- default; re-opening them lets `decide` evaluate the embedded functions
-- on the concrete inputs used by witnesses and counterexamples.
unseal Rat.add Rat.sub Rat.mul Rat.inv

namespace CultivationData

/-! ### numpy primitives -/

/-- Embeds `np.mean(l)`: the sum divided by the length.  (On an empty list
numpy emits NaN; here the total ℚ division yields `0` — all theorems about
means guard non-emptiness.) -/
def npMean (l : List ℚ) : ℚ := l.sum / l.length

/-- The ascending sorted copy of the samples that `np.percentile` works on. -/
def npSort (values : List ℚ) : List ℚ :=
  List.insertionSort (fun a b : ℚ => a ≤ b) values

/-- Linear interpolation of a sorted sample list at a (rational) virtual
index `pos`: interpolates between the entries at `⌊pos⌋` and `⌊pos⌋ + 1`
with fraction `pos - ⌊pos⌋`, collapsing to the last entry at the right
edge.  This is the kernel of `np.percentile`'s default method. -/
def interpAt (s : List ℚ) (pos : ℚ) : ℚ :=
  let i := (Int.floor pos).toNat
  if i + 1 < s.length then
    s.getD i 0 + (pos - (i : ℚ)) * (s.getD (i + 1) 0 - s.getD i 0)
  else
    s.getD (s.length - 1) 0

/-- Embeds `np.percentile(values, q)` with the default linear interpolation:
sort the samples and interpolate at virtual index `q/100 * (n-1)`. -/
def np_percentile (values : List ℚ) (q : ℚ) : ℚ :=
  interpAt (npSort values) (q * (((npSort values).length : ℚ) - 1) / 100)

/-! ### calculate_risk_metrics
(src/AssetManagement/MonteCarloSimulator/monte_carlo_simulator.py, lines 40-68) -/

/-- Embeds line 50: `var_percentile = np.percentile(final_values, (1-confidence_level)*100)`. -/
def var_percentile (values : List ℚ) (level : ℚ) : ℚ :=
  np_percentile values ((1 - level) * 100)

/-- Embeds line 51: `var = max(0, initial_investment - var_percentile)`. -/
def value_at_risk (values : List ℚ) (initial_investment level : ℚ) : ℚ :=
  max 0 (initial_investment - var_percentile values level)

/-- Embeds line 54: `cvar_values = final_values[final_values <= var_percentile]`. -/
def cvar_values (values : List ℚ) (level : ℚ) : List ℚ :=
  values.filter (fun v => decide (v ≤ var_percentile values level))

/-- Embeds lines 54-58: `cvar = max(0, initial_investment - np.mean(cvar_values))`
when `len(cvar_values) > 0`, else `cvar = 0`. -/
def conditional_value_at_risk (values : List ℚ) (initial_investment level : ℚ) : ℚ :=
  if 0 < (cvar_values values level).length then
    max 0 (initial_investment - npMean (cvar_values values level))
  else 0

/-- Embeds line 47:
`confidence_interval = np.percentile(final_values, [(1-confidence_level)*100, confidence_level*100])`. -/
def confidence_interval (values : List ℚ) (level : ℚ) : ℚ × ℚ :=
  (np_percentile values ((1 - level) * 100), np_percentile values (level * 100))

/-- Written from the spec's words, for comparison with `confidence_interval`:
the `(1-level)/2` and `1-(1-level)/2` percentiles (two-sided band). -/
def confidence_interval_spec (values : List ℚ) (level : ℚ) : ℚ × ℚ :=
  (np_percentile values ((1 - level) / 2 * 100),
   np_percentile values ((1 - (1 - level) / 2) * 100))

/-! ### monte_carlo_simulation
(src/MonteCarloSimulation/monte_carlo_simulation.py lines 21-36, identical to
src/AssetManagement/MonteCarloSimulator/monte_carlo_simulator.py lines 23-38.)

The scripts draw every daily return from numpy's implicit global generator
(`np.random.normal(mu, sigma, (days, num_simulations))`); no seed or
generator argument exists.  The global generator is modelled as an explicit
state: an unbounded stream of realized draws plus a cursor, advanced by the
number of variates consumed. -/

/-- Model of numpy's global random generator: the stream of realized draws
(position `k` holds the `k`-th variate the process will produce) and the
cursor of the next unconsumed position. -/
structure NpRandomState where
  stream : ℕ → ℚ
  idx : ℕ

/-- Embeds line 29's guard
`if rebalance_months and day % (rebalance_months * 21) == 0 and day > 0`:
`rebalance_months` is truthy when it is neither `None` nor `0`. -/
def rebalance_today (rebalance_months : Option ℕ) (day : ℕ) : Bool :=
  match rebalance_months with
  | none => false
  | some m => m != 0 && day % (m * 21) == 0 && day != 0

/-- Embeds lines 29-32, one day's update of `portfolio_value`: both the
rebalance branch (`portfolio_value = portfolio_value * (1 + r)`) and the
plain branch (`portfolio_value *= (1 + r)`) appear, exactly as in the
source. -/
def mcStep (rebalance_months : Option ℕ) (day : ℕ) (pv r : ℚ) : ℚ :=
  if rebalance_today rebalance_months day then pv * (1 + r) else pv * (1 + r)

/-- The `portfolio_value` after the first `d` days of one simulated path,
starting from `initial_investment` and folding `mcStep` over the drawn
daily returns `r`. -/
def mcValue (rebalance_months : Option ℕ) (r : ℕ → ℚ) (initial_investment : ℚ) : ℕ → ℚ
  | 0 => initial_investment
  | d + 1 => mcStep rebalance_months d (mcValue rebalance_months r initial_investment d) (r d)

/-- Embeds line 35: the recorded history
`cumulative_returns[day] = portfolio_value / initial_investment` of one
simulated path over `days` days. -/
def mcCumulative (rebalance_months : Option ℕ) (r : ℕ → ℚ) (initial_investment : ℚ)
    (days : ℕ) : List ℚ :=
  (List.range days).map (fun d => mcValue rebalance_months r initial_investment (d + 1) / initial_investment)

/-- Embeds `monte_carlo_simulation` (lines 21-36): `days = months * 21`; the
daily-returns matrix entry `(day, sim)` is the draw at global-stream offset
`day * num_simulations + sim` (numpy fills the `(days, num_simulations)`
array row-major); the result is the per-simulation cumulative-return
histories and `final_values = initial_investment * cumulative_returns[-1]`,
together with the advanced generator state. -/
def monte_carlo_simulation (initial_investment : ℚ) (months num_simulations : ℕ)
    (rebalance_months : Option ℕ) (g : NpRandomState) :
    (List (List ℚ) × List ℚ) × NpRandomState :=
  let days := months * 21
  let dr : ℕ → ℕ → ℚ := fun day sim => g.stream (g.idx + (day * num_simulations + sim))
  let cum := (List.range num_simulations).map
    (fun sim => mcCumulative rebalance_months (fun d => dr d sim) initial_investment days)
  let finals := cum.map (fun c => initial_investment * c.getLastD 0)
  ((cum, finals), ⟨g.stream, g.idx + days * num_simulations⟩)

/-! ### calculate_performance
(src/RebalanceSimulator/rebalance_simulator.py lines 59-75, identical to
src/AssetManagement/RebalanceSimulator/rebalance_simulator.py lines 90-104.)

The code first computes `daily_risk_free_rate = (1+risk_free_rate)**(1/252) - 1`
(an irrational power for a general rate; it is exactly `0` when the annual
rate is `0`); the embeddings below take that already-computed daily rate as
the parameter `daily_rf`. -/

/-- Embeds line 62:
`daily_returns = [pv[i] / pv[i-1] - 1 for i in range(1, len(pv))]`. -/
def daily_returns (pv : List ℚ) : List ℚ :=
  List.zipWith (fun prev cur => cur / prev - 1) pv pv.tail

/-- Embeds line 66: `excess_returns = [r - daily_risk_free_rate for r in daily_returns]`. -/
def excess_returns (pv : List ℚ) (daily_rf : ℚ) : List ℚ :=
  (daily_returns pv).map (fun r => r - daily_rf)

/-- The square of numpy's population standard deviation `np.std(l)`:
mean of squared deviations from the mean.  `np.std l = 0` iff this is `0`. -/
def npVariance (l : List ℚ) : ℚ :=
  (l.map (fun x => (x - npMean l) ^ 2)).sum / l.length

/-- Outcome of the floating-point expression
`np.sqrt(252) * np.mean(excess_returns) / np.std(excess_returns)` (line 67).
A zero divisor yields IEEE-754 `nan` (for a `0` numerator) or `±inf` (for a
nonzero one); otherwise the value is finite and is determined by the exact
mean `m` and variance `v` recorded (the float value is `√252 · m / √v`). -/
inductive SharpeOutcome where
  | nan : SharpeOutcome
  | posInf : SharpeOutcome
  | negInf : SharpeOutcome
  | finite (m v : ℚ) : SharpeOutcome
deriving DecidableEq

/-- Embeds line 67's unguarded division
`sharpe_ratio = np.sqrt(252) * np.mean(excess_returns) / np.std(excess_returns)`
under IEEE-754 semantics: when the standard deviation is zero the quotient
is `nan` or `±inf` according to the numerator's sign (`√252 > 0` preserves
it); otherwise it is finite. -/
def sharpe (excess : List ℚ) : SharpeOutcome :=
  let m := npMean excess
  let v := npVariance excess
  if v = 0 then (if m = 0 then .nan else (if 0 < m then .posInf else .negInf))
  else .finite m v

/-- Embeds `np.cumprod` from a running accumulator:
`np_cumprod_from a [x₁, x₂, ...] = [a·x₁, a·x₁·x₂, ...]`. -/
def np_cumprod_from (a : ℚ) : List ℚ → List ℚ
  | [] => []
  | x :: xs => (a * x) :: np_cumprod_from (a * x) xs

/-- Embeds line 70: `cumulative_returns = np.cumprod(1 + np.array(daily_returns))`. -/
def cumulative_returns (pv : List ℚ) : List ℚ :=
  np_cumprod_from 1 ((daily_returns pv).map (fun r => 1 + r))

/-- Tail of `np.maximum.accumulate` from a running accumulator. -/
def run_max_from (a : ℚ) : List ℚ → List ℚ
  | [] => []
  | x :: xs => max a x :: run_max_from (max a x) xs

/-- Embeds line 71: `peak = np.maximum.accumulate(cumulative_returns)`. -/
def running_max : List ℚ → List ℚ
  | [] => []
  | x :: xs => x :: run_max_from x xs

/-- Embeds `np.max` on a list (numpy raises on an empty array; theorems
guard non-emptiness and the `0` default is never read there). -/
def listMax : List ℚ → ℚ
  | [] => 0
  | x :: xs => xs.foldl max x

/-- Embeds line 72: `drawdowns = (peak - cumulative_returns) / peak`. -/
def drawdowns (pv : List ℚ) : List ℚ :=
  List.zipWith (fun p c => (p - c) / p) (running_max (cumulative_returns pv)) (cumulative_returns pv)

/-- Embeds line 73: `max_drawdown = np.max(drawdowns) * 100`. -/
def max_drawdown (pv : List ℚ) : ℚ := listMax (drawdowns pv) * 100

/-- Written from the spec's words, for comparison with `max_drawdown`: the
maximum peak-to-trough decline (a fraction) of the running-maximum-normalized
cumulative value series. -/
def max_decline_fraction (pv : List ℚ) : ℚ := listMax (drawdowns pv)

/-! ### Portfolio.check_threshold
(src/AssetManagement/RebalanceSimulator/rebalance_simulator.py lines 33-39.)
The three dictionaries `holdings`, `current_prices`, `target_allocations`
share one key set; they are flattened into one list of per-asset records. -/

/-- One asset's row of the portfolio state: its held share count, its
current price, and its target allocation weight. -/
structure AssetPos where
  holding : ℚ
  price : ℚ
  target : ℚ
deriving DecidableEq

/-- Embeds line 34:
`total_value = sum(self.holdings[asset] * price for asset, price in current_prices.items())`. -/
def total_value (assets : List AssetPos) : ℚ :=
  (assets.map (fun a => a.holding * a.price)).sum

/-- Embeds lines 35-39: loop over the assets, returning `True` as soon as
one current weight deviates from its target by more than `threshold` in
absolute value, `False` when none does. -/
def check_threshold (assets : List AssetPos) (threshold : ℚ) : Bool :=
  assets.any (fun a =>
    decide (threshold < |a.holding * a.price / total_value assets - a.target|))

/-! ### simulate_scenario rebalance step
(src/AssetManagement/StressTestSimulator/stress_test_simulator.py lines 57-59.) -/

/-- Embeds lines 58-59:
`target_allocation = {asset: value * scenario[-1] for asset, value in asset_allocation.items()};`
`scenario[-1] = sum(target_allocation.values())` — the allocation weights are
the list `ws`, and `v` is the current `scenario[-1]`. -/
def scenario_rebalance_step (ws : List ℚ) (v : ℚ) : ℚ :=
  (ws.map (fun w => w * v)).sum

/-! ## Sorting and percentile lemmas -/

theorem npSort_sorted (values : List ℚ) :
    (npSort values).Sorted (fun a b : ℚ => a ≤ b) :=
  List.sorted_insertionSort _ values

theorem npSort_perm (values : List ℚ) : List.Perm (npSort values) values :=
  List.perm_insertionSort _ values

theorem npSort_length (values : List ℚ) :
    (npSort values).length = values.length :=
  (npSort_perm values).length_eq

theorem npSort_length_pos (values : List ℚ) (hne : values ≠ []) :
    0 < (npSort values).length := by
  rw [npSort_length]
  exact List.length_pos.mpr hne

theorem sorted_getD_mono (values : List ℚ) {a b : ℕ} (hab : a ≤ b)
    (hb : b < (npSort values).length) :
    (npSort values).getD a 0 ≤ (npSort values).getD b 0 := by
  have ha : a < (npSort values).length := Nat.lt_of_le_of_lt hab hb
  rw [List.getD_eq_getElem _ _ ha, List.getD_eq_getElem _ _ hb]
  have h := (npSort_sorted values).rel_get_of_le
    (a := ⟨a, ha⟩) (b := ⟨b, hb⟩) (Fin.mk_le_mk.mpr hab)
  simpa using h

theorem cast_toNat_floor_le (p : ℚ) (hp : 0 ≤ p) :
    ((Int.floor p).toNat : ℚ) ≤ p := by
  have h0 : (0 : ℤ) ≤ Int.floor p := Int.floor_nonneg.mpr hp
  have h1 : (((Int.floor p).toNat : ℤ) : ℚ) ≤ p := by
    rw [Int.toNat_of_nonneg h0]
    exact Int.floor_le p
  exact_mod_cast h1

theorem lt_cast_toNat_floor_add_one (p : ℚ) (hp : 0 ≤ p) :
    p < ((Int.floor p).toNat : ℚ) + 1 := by
  have h0 : (0 : ℤ) ≤ Int.floor p := Int.floor_nonneg.mpr hp
  have h1 : p < (((Int.floor p).toNat : ℤ) : ℚ) + 1 := by
    rw [Int.toNat_of_nonneg h0]
    exact Int.lt_floor_add_one p
  exact_mod_cast h1

theorem toNat_floor_le_of_le (p : ℚ) (n : ℕ) (hn : 1 ≤ n) (hp : p ≤ (n : ℚ) - 1) :
    (Int.floor p).toNat ≤ n - 1 := by
  have h2 : Int.floor ((n : ℚ) - 1) = (n : ℤ) - 1 := by
    rw [show ((n : ℚ) - 1) = (((n : ℤ) - 1 : ℤ) : ℚ) by push_cast; ring]
    exact Int.floor_intCast _
  have h1 : Int.floor p ≤ (n : ℤ) - 1 := by
    rw [← h2]
    exact Int.floor_mono hp
  omega

theorem interpAt_lower (values : List ℚ) {p : ℚ} (hp : 0 ≤ p) :
    (npSort values).getD 0 0 ≤ interpAt (npSort values) p := by
  unfold interpAt
  by_cases hbr : (Int.floor p).toNat + 1 < (npSort values).length
  · rw [if_pos hbr]
    have hiq : ((Int.floor p).toNat : ℚ) ≤ p := cast_toNat_floor_le p hp
    have h1 : (npSort values).getD 0 0 ≤ (npSort values).getD (Int.floor p).toNat 0 :=
      sorted_getD_mono values (Nat.zero_le _) (by omega)
    have h2 : (npSort values).getD (Int.floor p).toNat 0 ≤
        (npSort values).getD ((Int.floor p).toNat + 1) 0 :=
      sorted_getD_mono values (Nat.le_succ _) hbr
    have h3 : 0 ≤ (p - ((Int.floor p).toNat : ℚ)) *
        ((npSort values).getD ((Int.floor p).toNat + 1) 0 -
          (npSort values).getD (Int.floor p).toNat 0) :=
      mul_nonneg (by linarith) (by linarith)
    linarith
  · rw [if_neg hbr]
    rcases Nat.eq_zero_or_pos (npSort values).length with hlen | hlen
    · rw [List.length_eq_zero.mp hlen]
      simp
    · exact sorted_getD_mono values (Nat.zero_le _) (by omega)

theorem interpAt_mono (values : List ℚ) {p1 p2 : ℚ} (h0 : 0 ≤ p1) (h12 : p1 ≤ p2)
    (hn : p2 ≤ ((npSort values).length : ℚ) - 1) (hne : values ≠ []) :
    interpAt (npSort values) p1 ≤ interpAt (npSort values) p2 := by
  have hlen : 1 ≤ (npSort values).length := npSort_length_pos values hne
  have hi1le : ((Int.floor p1).toNat : ℚ) ≤ p1 := cast_toNat_floor_le p1 h0
  have hi1lt : p1 < ((Int.floor p1).toNat : ℚ) + 1 := lt_cast_toNat_floor_add_one p1 h0
  have hi2le : ((Int.floor p2).toNat : ℚ) ≤ p2 := cast_toNat_floor_le p2 (le_trans h0 h12)
  have hi12 : (Int.floor p1).toNat ≤ (Int.floor p2).toNat := by
    have := Int.floor_mono h12
    omega
  have hi2top : (Int.floor p2).toNat ≤ (npSort values).length - 1 :=
    toNat_floor_le_of_le p2 (npSort values).length hlen hn
  unfold interpAt
  by_cases hb1 : (Int.floor p1).toNat + 1 < (npSort values).length <;>
    by_cases hb2 : (Int.floor p2).toNat + 1 < (npSort values).length
  · rw [if_pos hb1, if_pos hb2]
    rcases Nat.lt_or_ge (Int.floor p1).toNat (Int.floor p2).toNat with hlt | hge
    · have hd1 : (npSort values).getD (Int.floor p1).toNat 0 ≤
          (npSort values).getD ((Int.floor p1).toNat + 1) 0 :=
        sorted_getD_mono values (Nat.le_succ _) hb1
      have e1 : (npSort values).getD (Int.floor p1).toNat 0 +
          (p1 - ((Int.floor p1).toNat : ℚ)) *
            ((npSort values).getD ((Int.floor p1).toNat + 1) 0 -
              (npSort values).getD (Int.floor p1).toNat 0) ≤
          (npSort values).getD ((Int.floor p1).toNat + 1) 0 := by
        have hmul := mul_le_mul_of_nonneg_right
          (by linarith : p1 - ((Int.floor p1).toNat : ℚ) ≤ 1) (by linarith :
            (0 : ℚ) ≤ (npSort values).getD ((Int.floor p1).toNat + 1) 0 -
              (npSort values).getD (Int.floor p1).toNat 0)
        rw [one_mul] at hmul
        linarith
      have e2 : (npSort values).getD ((Int.floor p1).toNat + 1) 0 ≤
          (npSort values).getD (Int.floor p2).toNat 0 :=
        sorted_getD_mono values (by omega) (by omega)
      have hd2 : (npSort values).getD (Int.floor p2).toNat 0 ≤
          (npSort values).getD ((Int.floor p2).toNat + 1) 0 :=
        sorted_getD_mono values (Nat.le_succ _) hb2
      have e3 : 0 ≤ (p2 - ((Int.floor p2).toNat : ℚ)) *
          ((npSort values).getD ((Int.floor p2).toNat + 1) 0 -
            (npSort values).getD (Int.floor p2).toNat 0) :=
        mul_nonneg (by linarith) (by linarith)
      linarith
    · have heq : (Int.floor p2).toNat = (Int.floor p1).toNat := le_antisymm hge hi12
      rw [heq]
      have hd1 : (npSort values).getD (Int.floor p1).toNat 0 ≤
          (npSort values).getD ((Int.floor p1).toNat + 1) 0 :=
        sorted_getD_mono values (Nat.le_succ _) hb1
      have hmul := mul_le_mul_of_nonneg_right
        (by linarith : p1 - ((Int.floor p1).toNat : ℚ) ≤ p2 - ((Int.floor p1).toNat : ℚ))
        (by linarith : (0 : ℚ) ≤ (npSort values).getD ((Int.floor p1).toNat + 1) 0 -
          (npSort values).getD (Int.floor p1).toNat 0)
      linarith
  · rw [if_pos hb1, if_neg hb2]
    have hd1 : (npSort values).getD (Int.floor p1).toNat 0 ≤
        (npSort values).getD ((Int.floor p1).toNat + 1) 0 :=
      sorted_getD_mono values (Nat.le_succ _) hb1
    have e1 : (npSort values).getD (Int.floor p1).toNat 0 +
        (p1 - ((Int.floor p1).toNat : ℚ)) *
          ((npSort values).getD ((Int.floor p1).toNat + 1) 0 -
            (npSort values).getD (Int.floor p1).toNat 0) ≤
        (npSort values).getD ((Int.floor p1).toNat + 1) 0 := by
      have hmul := mul_le_mul_of_nonneg_right
        (by linarith : p1 - ((Int.floor p1).toNat : ℚ) ≤ 1) (by linarith :
          (0 : ℚ) ≤ (npSort values).getD ((Int.floor p1).toNat + 1) 0 -
            (npSort values).getD (Int.floor p1).toNat 0)
      rw [one_mul] at hmul
      linarith
    have e2 : (npSort values).getD ((Int.floor p1).toNat + 1) 0 ≤
        (npSort values).getD ((npSort values).length - 1) 0 :=
      sorted_getD_mono values (by omega) (by omega)
    linarith
  · omega
  · rw [if_neg hb1, if_neg hb2]

theorem np_percentile_mono (values : List ℚ) {q1 q2 : ℚ} (hne : values ≠ [])
    (h0 : 0 ≤ q1) (h12 : q1 ≤ q2) (h100 : q2 ≤ 100) :
    np_percentile values q1 ≤ np_percentile values q2 := by
  have hlen : 1 ≤ (npSort values).length := npSort_length_pos values hne
  have hnn : (0 : ℚ) ≤ ((npSort values).length : ℚ) - 1 := by
    have h1 : (1 : ℚ) ≤ ((npSort values).length : ℚ) := by exact_mod_cast hlen
    linarith
  unfold np_percentile
  apply interpAt_mono values ?_ ?_ ?_ hne
  · have := mul_nonneg h0 hnn
    linarith
  · have := mul_le_mul_of_nonneg_right h12 hnn
    linarith
  · have := mul_le_mul_of_nonneg_right h100 hnn
    linarith

theorem exists_mem_le_np_percentile (values : List ℚ) {q : ℚ} (hne : values ≠ [])
    (hq0 : 0 ≤ q) : ∃ v ∈ values, v ≤ np_percentile values q := by
  have hlen : 0 < (npSort values).length := npSort_length_pos values hne
  have hnn : (0 : ℚ) ≤ ((npSort values).length : ℚ) - 1 := by
    have h1 : (1 : ℚ) ≤ ((npSort values).length : ℚ) := by exact_mod_cast hlen
    linarith
  refine ⟨(npSort values).getD 0 0, ?_, ?_⟩
  · have hmem : (npSort values).getD 0 0 ∈ npSort values := by
      rw [List.getD_eq_getElem _ _ hlen]
      exact List.getElem_mem _
    exact (npSort_perm values).subset hmem
  · unfold np_percentile
    apply interpAt_lower values
    have := mul_nonneg hq0 hnn
    linarith

theorem npMean_le_of_forall_le (l : List ℚ) (c : ℚ) (hne : l ≠ [])
    (h : ∀ x ∈ l, x ≤ c) : npMean l ≤ c := by
  have hlen : 0 < l.length := List.length_pos.mpr hne
  have hsum : l.sum ≤ l.length • c := List.sum_le_card_nsmul l c h
  rw [nsmul_eq_mul] at hsum
  unfold npMean
  rw [div_le_iff₀ (by exact_mod_cast hlen : (0 : ℚ) < (l.length : ℚ))]
  linarith

/-! ## Claim theorems -/

/-- C1: for every non-empty list of terminal values, every initial
investment, and every confidence level in (0,1), `value_at_risk` returns
`max 0 (initial_investment - np.percentile(values, (1-level)·100))`, the
loss relative to the `1-level` probability percentile; in particular the
returned amount is nonnegative. -/
theorem c1_value_at_risk (values : List ℚ) (initial_investment level : ℚ)
    (hne : values ≠ []) (hl0 : 0 < level) (hl1 : level < 1) :
    value_at_risk values initial_investment level =
      max 0 (initial_investment - np_percentile values ((1 - level) * 100)) ∧
    0 ≤ value_at_risk values initial_investment level :=
  ⟨rfl, le_max_left 0 _⟩

theorem c1_value_at_risk_witness :
    ([1, 2, 3] : List ℚ) ≠ [] ∧ (0 : ℚ) < 9 / 10 ∧ (9 / 10 : ℚ) < 1 ∧
    (value_at_risk [1, 2, 3] 2 (9 / 10) =
      max 0 (2 - np_percentile [1, 2, 3] ((1 - 9 / 10) * 100)) ∧
     0 ≤ value_at_risk [1, 2, 3] 2 (9 / 10)) :=
  ⟨by decide, by norm_num, by norm_num,
    c1_value_at_risk [1, 2, 3] 2 (9 / 10) (by decide) (by norm_num) (by norm_num)⟩

/-- C2 counterexample: at `values = [0, 100]` and `level = 0.90` the code's
`confidence_interval` is the pair of 10th/90th percentiles `(10, 90)`,
while the claimed `(1-level)/2` and `1-(1-level)/2` (5th/95th) percentiles
give `(5, 95)` — the claim as stated is false on the code. -/
theorem c2_confidence_interval_cex :
    confidence_interval [0, 100] (9 / 10) = (10, 90) ∧
    confidence_interval_spec [0, 100] (9 / 10) = (5, 95) ∧
    ((10 : ℚ), (90 : ℚ)) ≠ ((5 : ℚ), (95 : ℚ)) := by
  refine ⟨by decide, by decide, by decide⟩

/-- C2 (amended): the confidence interval returned is the pair of the
`1-level` and `level` probability percentiles of the values (for
`level = 0.90`, the 10th and 90th percentiles — an 80% two-sided band);
whenever `level ≥ 1/2` the lower bound does not exceed the upper. -/
theorem c2_confidence_interval_amended (values : List ℚ) (level : ℚ)
    (hne : values ≠ []) (hl0 : 0 < level) (hl1 : level < 1) :
    confidence_interval values level =
      (np_percentile values ((1 - level) * 100), np_percentile values (level * 100)) ∧
    (1 / 2 ≤ level →
      (confidence_interval values level).1 ≤ (confidence_interval values level).2) := by
  refine ⟨rfl, fun hhalf => ?_⟩
  apply np_percentile_mono values hne ?_ ?_ ?_
  · linarith
  · linarith
  · linarith

theorem c2_confidence_interval_amended_witness :
    ([0, 100] : List ℚ) ≠ [] ∧ (0 : ℚ) < 9 / 10 ∧ (9 / 10 : ℚ) < 1 ∧
    (confidence_interval [0, 100] (9 / 10) =
      (np_percentile [0, 100] ((1 - 9 / 10) * 100), np_percentile [0, 100] (9 / 10 * 100)) ∧
     (1 / 2 ≤ (9 / 10 : ℚ) →
      (confidence_interval [0, 100] (9 / 10)).1 ≤ (confidence_interval [0, 100] (9 / 10)).2)) :=
  ⟨by decide, by norm_num, by norm_num,
    c2_confidence_interval_amended [0, 100] (9 / 10) (by decide) (by norm_num) (by norm_num)⟩

/-- C4: for every non-empty list of terminal values, every initial
investment, and every confidence level in (0,1), `conditional_value_at_risk`
returns `max 0 (initial_investment - mean of the values at or below the VaR
percentile threshold)` (the threshold tail is never empty, because the
interpolated percentile is at least the sample minimum), and on an empty
tail the code's guard returns exactly `0`. -/
theorem c4_conditional_value_at_risk (values : List ℚ) (initial_investment level : ℚ)
    (hne : values ≠ []) (hl0 : 0 < level) (hl1 : level < 1) :
    conditional_value_at_risk values initial_investment level =
      max 0 (initial_investment - npMean (cvar_values values level)) ∧
    (cvar_values values level = [] →
      conditional_value_at_risk values initial_investment level = 0) := by
  constructor
  · have hq0 : (0 : ℚ) ≤ (1 - level) * 100 := by linarith
    obtain ⟨v, hv, hvle⟩ := exists_mem_le_np_percentile values hne hq0
    have hmem : v ∈ cvar_values values level := by
      unfold cvar_values
      refine List.mem_filter.mpr ⟨hv, ?_⟩
      simp only [decide_eq_true_eq]
      exact hvle
    have hlen : 0 < (cvar_values values level).length := by
      rcases Nat.eq_zero_or_pos (cvar_values values level).length with h | h
      · rw [List.length_eq_zero.mp h] at hmem
        exact absurd hmem (List.not_mem_nil v)
      · exact h
    unfold conditional_value_at_risk
    rw [if_pos hlen]
  · intro h
    unfold conditional_value_at_risk
    rw [h]
    simp

theorem c4_conditional_value_at_risk_witness :
    ([1, 2, 3] : List ℚ) ≠ [] ∧ (0 : ℚ) < 9 / 10 ∧ (9 / 10 : ℚ) < 1 ∧
    (conditional_value_at_risk [1, 2, 3] 2 (9 / 10) =
      max 0 (2 - npMean (cvar_values [1, 2, 3] (9 / 10))) ∧
     (cvar_values [1, 2, 3] (9 / 10) = [] →
      conditional_value_at_risk [1, 2, 3] 2 (9 / 10) = 0)) :=
  ⟨by decide, by norm_num, by norm_num,
    c4_conditional_value_at_risk [1, 2, 3] 2 (9 / 10) (by decide) (by norm_num) (by norm_num)⟩

/-- C5: whenever at least one sampled value lies at or below the VaR
percentile threshold (the `cvar_values` tail is non-empty), the CVaR amount
is at least the VaR amount: the tail mean is at most the percentile, so the
conditional loss is at least the percentile loss. -/
theorem c5_cvar_ge_var (values : List ℚ) (initial_investment level : ℚ)
    (hne : values ≠ []) (hl0 : 0 < level) (hl1 : level < 1)
    (htail : cvar_values values level ≠ []) :
    value_at_risk values initial_investment level ≤
      conditional_value_at_risk values initial_investment level := by
  have hall : ∀ x ∈ cvar_values values level, x ≤ var_percentile values level := by
    intro x hx
    unfold cvar_values at hx
    have h2 := (List.mem_filter.mp hx).2
    simpa using h2
  have hmean : npMean (cvar_values values level) ≤ var_percentile values level :=
    npMean_le_of_forall_le _ _ htail hall
  have hlen : 0 < (cvar_values values level).length := List.length_pos.mpr htail
  unfold conditional_value_at_risk value_at_risk
  rw [if_pos hlen]
  exact max_le_max (le_refl 0) (by linarith)

/-! ## Sharpe ratio lemmas (C6) -/

theorem npMean_const (l : List ℚ) (c : ℚ) (hne : l ≠ []) (h : ∀ x ∈ l, x = c) :
    npMean l = c := by
  have hlen : 0 < l.length := List.length_pos.mpr hne
  have hsum : l.sum = l.length • c := List.sum_eq_card_nsmul l c h
  unfold npMean
  rw [hsum, nsmul_eq_mul, mul_comm, mul_div_assoc,
    div_self (by exact_mod_cast hlen.ne' : ((l.length : ℚ)) ≠ 0), mul_one]

theorem npVariance_eq_zero (l : List ℚ) (hne : l ≠ [])
    (h : ∀ x ∈ l, ∀ y ∈ l, x = y) : npVariance l = 0 := by
  obtain ⟨a, t, rfl⟩ : ∃ a t, l = a :: t := by
    cases l with
    | nil => exact absurd rfl hne
    | cons a t => exact ⟨a, t, rfl⟩
  have hall : ∀ x ∈ a :: t, x = a := fun x hx => h x hx a (List.mem_cons_self a t)
  have hmean : npMean (a :: t) = a := npMean_const _ a hne hall
  have hzero : ((a :: t).map (fun x => (x - npMean (a :: t)) ^ 2)).sum = 0 := by
    apply List.sum_eq_zero
    intro y hy
    rcases List.mem_map.mp hy with ⟨x, hx, rfl⟩
    rw [hall x hx, hmean]
    ring
  unfold npVariance
  rw [hzero, zero_div]

theorem sharpe_var_zero_mean_zero (excess : List ℚ) (hv : npVariance excess = 0)
    (hm : npMean excess = 0) : sharpe excess = SharpeOutcome.nan := by
  simp only [sharpe]
  rw [if_pos hv, if_pos hm]

theorem sharpe_var_zero_mean_pos (excess : List ℚ) (hv : npVariance excess = 0)
    (hm : 0 < npMean excess) : sharpe excess = SharpeOutcome.posInf := by
  simp only [sharpe]
  rw [if_pos hv, if_neg (ne_of_gt hm), if_pos hm]

theorem sharpe_var_zero_mean_neg (excess : List ℚ) (hv : npVariance excess = 0)
    (hm : npMean excess < 0) : sharpe excess = SharpeOutcome.negInf := by
  simp only [sharpe]
  rw [if_pos hv, if_neg (ne_of_lt hm), if_neg (not_lt_of_gt hm)]

theorem sharpe_var_ne_zero (excess : List ℚ) (hv : npVariance excess ≠ 0) :
    sharpe excess = SharpeOutcome.finite (npMean excess) (npVariance excess) := by
  simp only [sharpe]
  rw [if_neg hv]

/-! ## Monte Carlo simulation lemmas (C3, C7, C8) -/

theorem mcStep_eq (rebalance_months : Option ℕ) (day : ℕ) (pv r : ℚ) :
    mcStep rebalance_months day pv r = pv * (1 + r) := by
  unfold mcStep
  split <;> rfl

theorem mcValue_rm_irrelevant (rebalance_months : Option ℕ) (r : ℕ → ℚ)
    (initial_investment : ℚ) : ∀ n, mcValue rebalance_months r initial_investment n =
      mcValue none r initial_investment n := by
  intro n
  induction n with
  | zero => rfl
  | succ d ih =>
    show mcStep _ d _ _ = mcStep none d _ _
    rw [mcStep_eq, mcStep_eq, ih]

theorem mcCumulative_rm_irrelevant (rebalance_months : Option ℕ) (r : ℕ → ℚ)
    (initial_investment : ℚ) (days : ℕ) :
    mcCumulative rebalance_months r initial_investment days =
      mcCumulative none r initial_investment days := by
  unfold mcCumulative
  apply List.map_congr_left
  intro d _
  rw [mcValue_rm_irrelevant]

theorem mcValue_congr (rebalance_months : Option ℕ) (r r2 : ℕ → ℚ)
    (initial_investment : ℚ) : ∀ n, (∀ d, d < n → r d = r2 d) →
    mcValue rebalance_months r initial_investment n =
      mcValue rebalance_months r2 initial_investment n := by
  intro n
  induction n with
  | zero => intro _; rfl
  | succ d ih =>
    intro h
    show mcStep _ d _ (r d) = mcStep _ d _ (r2 d)
    rw [ih (fun k hk => h k (Nat.lt_succ_of_lt hk)), h d (Nat.lt_succ_self d)]

theorem mcCumulative_congr (rebalance_months : Option ℕ) (r r2 : ℕ → ℚ)
    (initial_investment : ℚ) (days : ℕ) (h : ∀ d, d < days → r d = r2 d) :
    mcCumulative rebalance_months r initial_investment days =
      mcCumulative rebalance_months r2 initial_investment days := by
  unfold mcCumulative
  apply List.map_congr_left
  intro d hd
  rw [mcValue_congr rebalance_months r r2 initial_investment (d + 1)
    (fun k hk => h k (Nat.lt_of_lt_of_le hk (List.mem_range.mp hd)))]

theorem sum_map_mul (ws : List ℚ) (v : ℚ) :
    (ws.map (fun w => w * v)).sum = ws.sum * v := by
  induction ws with
  | nil => simp
  | cons w t ih => simp [ih, add_mul]

/-! ## Drawdown lemmas (C9) -/

theorem daily_returns_pos (pv : List ℚ) (hpos : ∀ x ∈ pv, 0 < x)
    (hmono : List.Chain' (fun a b : ℚ => a < b) pv) :
    ∀ r ∈ daily_returns pv, 0 < r := by
  induction pv with
  | nil => intro r hr; simp [daily_returns] at hr
  | cons a t ih =>
    cases t with
    | nil => intro r hr; simp [daily_returns] at hr
    | cons b u =>
      intro r hr
      unfold daily_returns at hr
      rw [List.tail_cons, List.zipWith_cons_cons] at hr
      rcases List.mem_cons.mp hr with h1 | h1
      · subst h1
        have ha : 0 < a := hpos a (List.mem_cons_self _ _)
        have hab : a < b := (List.chain'_cons.mp hmono).1
        have h2 : 1 < b / a := (one_lt_div ha).mpr hab
        linarith
      · exact ih (fun x hx => hpos x (List.mem_cons_of_mem a hx))
          (List.chain'_cons.mp hmono).2 r h1

theorem np_cumprod_from_chain (l : List ℚ) : ∀ a : ℚ, 0 < a → (∀ x ∈ l, 1 < x) →
    List.Chain (fun p q : ℚ => p ≤ q) a (np_cumprod_from a l) := by
  induction l with
  | nil => intro a _ _; exact List.Chain.nil
  | cons x xs ih =>
    intro a ha h
    have hx : 1 < x := h x (List.mem_cons_self _ _)
    have hax : 0 < a * x := mul_pos ha (lt_trans one_pos hx)
    have haax : a ≤ a * x := le_mul_of_one_le_right ha.le hx.le
    exact List.Chain.cons haax (ih (a * x) hax (fun y hy => h y (List.mem_cons_of_mem x hy)))

theorem run_max_from_of_chain :
    ∀ (l : List ℚ) (a : ℚ), List.Chain (fun p q : ℚ => p ≤ q) a l → run_max_from a l = l := by
  intro l
  induction l with
  | nil => intro a _; rfl
  | cons x xs ih =>
    intro a h
    rcases List.chain_cons.mp h with ⟨hax, hchain⟩
    unfold run_max_from
    rw [max_eq_right hax, ih x hchain]

theorem foldl_max_zeros : ∀ (t : List ℚ) (acc : ℚ), (∀ x ∈ t, x = 0) → acc = 0 →
    t.foldl max acc = 0 := by
  intro t
  induction t with
  | nil => intro acc _ hacc; exact hacc
  | cons b u ih =>
    intro acc h hacc
    rw [List.foldl_cons]
    exact ih (max acc b) (fun x hx => h x (List.mem_cons_of_mem b hx))
      (by rw [hacc, h b (List.mem_cons_self _ _), max_self])

theorem listMax_zero (l : List ℚ) (h : ∀ x ∈ l, x = 0) (hne : l ≠ []) : listMax l = 0 := by
  cases l with
  | nil => exact absurd rfl hne
  | cons a t =>
    unfold listMax
    exact foldl_max_zeros t a (fun x hx => h x (List.mem_cons_of_mem a hx))
      (h a (List.mem_cons_self _ _))

theorem np_cumprod_from_length (l : List ℚ) : ∀ a : ℚ,
    (np_cumprod_from a l).length = l.length := by
  induction l with
  | nil => intro a; rfl
  | cons x xs ih =>
    intro a
    show (np_cumprod_from (a * x) xs).length + 1 = xs.length + 1
    rw [ih (a * x)]

/-! ## Claim theorems (C3, C6, C7, C8, C9, C10) -/

/-- C3 counterexample: running the simulator with one path, one month (21
trading days) and a constant drawn daily return of `-2` (a loss of 200%, a
draw a normal return model produces with positive probability), the first
recorded entry of the emitted value history `cumulative_returns` is `-1`:
the code records negative period-end values, so no clamping to zero
exists. -/
theorem c3_negative_value_cex :
    ((monte_carlo_simulation 1 1 1 none ⟨fun _ => -2, 0⟩).1.1.getD 0 []).getD 0 0 < 0 := by
  decide

/-- C3 (amended): the simulator applies each drawn return multiplicatively
with no zero-floor clamp — a period's update is always `pv * (1 + r)`, in
both branches — so a drawn return below `-1` at a positive holding makes
the recorded period-end value negative. -/
theorem c3_no_clamp_amended (rebalance_months : Option ℕ) (day : ℕ) (pv r : ℚ)
    (hpv : 0 < pv) (hr : r < -1) :
    mcStep rebalance_months day pv r = pv * (1 + r) ∧
    mcStep rebalance_months day pv r < 0 := by
  refine ⟨mcStep_eq _ _ _ _, ?_⟩
  rw [mcStep_eq]
  exact mul_neg_of_pos_of_neg hpv (by linarith)

theorem c3_no_clamp_amended_witness :
    (0 : ℚ) < 1 ∧ (-2 : ℚ) < -1 ∧
    (mcStep none 0 1 (-2) = 1 * (1 + -2) ∧ mcStep none 0 1 (-2) < 0) :=
  ⟨by norm_num, by norm_num, c3_no_clamp_amended none 0 1 (-2) (by norm_num) (by norm_num)⟩

/-- C6 counterexample: for the strictly geometric trajectory `[1, 2, 4]`
with a zero daily risk-free rate the excess returns are `[1, 1]` — zero
variance, nonzero mean — and the unguarded division yields `+inf`, which is
neither `NaN` nor a raised `DegenerateSeriesError` (no such error exists in
the code). -/
theorem c6_sharpe_cex :
    npVariance (excess_returns [1, 2, 4] 0) = 0 ∧
    sharpe (excess_returns [1, 2, 4] 0) = SharpeOutcome.posInf ∧
    SharpeOutcome.posInf ≠ SharpeOutcome.nan := by
  refine ⟨by decide, by decide, by decide⟩

/-- C6 (amended): on a zero-variance excess-return series (all per-period
excess returns equal) the unguarded division returns `NaN` exactly when the
mean excess return is zero, and `±inf` otherwise; on a nonzero-variance
series it returns the finite value `sqrt(252) * mean / std`, determined by
the exact mean and variance. -/
theorem c6_sharpe_amended (pv : List ℚ) (daily_rf : ℚ)
    (hne : excess_returns pv daily_rf ≠ [])
    (heq : ∀ x ∈ excess_returns pv daily_rf, ∀ y ∈ excess_returns pv daily_rf, x = y) :
    (sharpe (excess_returns pv daily_rf) = SharpeOutcome.nan ↔
      npMean (excess_returns pv daily_rf) = 0) ∧
    (npMean (excess_returns pv daily_rf) ≠ 0 →
      sharpe (excess_returns pv daily_rf) = SharpeOutcome.posInf ∨
      sharpe (excess_returns pv daily_rf) = SharpeOutcome.negInf) ∧
    (∀ excess : List ℚ, npVariance excess ≠ 0 →
      sharpe excess = SharpeOutcome.finite (npMean excess) (npVariance excess)) := by
  have hv : npVariance (excess_returns pv daily_rf) = 0 :=
    npVariance_eq_zero _ hne heq
  refine ⟨⟨fun h => ?_, fun hm => sharpe_var_zero_mean_zero _ hv hm⟩,
    fun hm => ?_, fun excess hvne => sharpe_var_ne_zero excess hvne⟩
  · by_contra hm
    rcases lt_or_gt_of_ne hm with hneg | hpos
    · rw [sharpe_var_zero_mean_neg _ hv hneg] at h
      exact absurd h (by decide)
    · rw [sharpe_var_zero_mean_pos _ hv hpos] at h
      exact absurd h (by decide)
  · rcases lt_or_gt_of_ne hm with hneg | hpos
    · exact Or.inr (sharpe_var_zero_mean_neg _ hv hneg)
    · exact Or.inl (sharpe_var_zero_mean_pos _ hv hpos)

theorem c6_sharpe_amended_witness :
    excess_returns [1, 2, 4] 0 ≠ [] ∧
    (∀ x ∈ excess_returns [1, 2, 4] 0, ∀ y ∈ excess_returns [1, 2, 4] 0, x = y) ∧
    ((sharpe (excess_returns [1, 2, 4] 0) = SharpeOutcome.nan ↔
       npMean (excess_returns [1, 2, 4] 0) = 0) ∧
     (npMean (excess_returns [1, 2, 4] 0) ≠ 0 →
       sharpe (excess_returns [1, 2, 4] 0) = SharpeOutcome.posInf ∨
       sharpe (excess_returns [1, 2, 4] 0) = SharpeOutcome.negInf) ∧
     (∀ excess : List ℚ, npVariance excess ≠ 0 →
       sharpe excess = SharpeOutcome.finite (npMean excess) (npVariance excess))) :=
  ⟨by decide, by decide, c6_sharpe_amended [1, 2, 4] 0 (by decide) (by decide)⟩

/-- C7 counterexample: two back-to-back invocations of
`monte_carlo_simulation` with identical parameters do not produce identical
results: they consume successive draws of the shared global generator
(here: a stream whose first 21 draws are `0` and whose next draws are `1`),
giving final values `[1]` and then `[2^21]`.  No seed parameter exists with
which a caller could make the two runs coincide. -/
theorem c7_global_state_cex :
    (monte_carlo_simulation 1 1 1 none ⟨fun i => if i < 21 then 0 else 1, 0⟩).1.2 ≠
    (monte_carlo_simulation 1 1 1 none
      (monte_carlo_simulation 1 1 1 none ⟨fun i => if i < 21 then 0 else 1, 0⟩).2).1.2 := by
  decide

/-- C7 (amended): the simulation's outputs are a deterministic function of
the parameters and of the global generator's draw window — two runs whose
generator states agree on the consumed window of `days * num_simulations`
draws produce identical value histories and final values.  Reproducibility
therefore requires reproducing the implicit global state, not passing a
seed: the function has no seed or generator parameter. -/
theorem c7_reproducibility_amended (initial_investment : ℚ)
    (months num_simulations : ℕ) (rebalance_months : Option ℕ)
    (g g2 : NpRandomState)
    (h : ∀ k, k < months * 21 * num_simulations →
      g.stream (g.idx + k) = g2.stream (g2.idx + k)) :
    (monte_carlo_simulation initial_investment months num_simulations rebalance_months g).1 =
    (monte_carlo_simulation initial_investment months num_simulations rebalance_months g2).1 := by
  simp only [monte_carlo_simulation]
  have hcum : (List.range num_simulations).map
      (fun sim => mcCumulative rebalance_months
        (fun d => g.stream (g.idx + (d * num_simulations + sim)))
        initial_investment (months * 21)) =
      (List.range num_simulations).map
      (fun sim => mcCumulative rebalance_months
        (fun d => g2.stream (g2.idx + (d * num_simulations + sim)))
        initial_investment (months * 21)) := by
    apply List.map_congr_left
    intro sim hsim
    have hsim2 : sim < num_simulations := List.mem_range.mp hsim
    apply mcCumulative_congr
    intro d hd
    apply h
    have h1 : d * num_simulations + sim < (d + 1) * num_simulations := by
      rw [Nat.succ_mul]
      omega
    have h2 : (d + 1) * num_simulations ≤ months * 21 * num_simulations :=
      Nat.mul_le_mul_right _ (by omega)
    exact Nat.lt_of_lt_of_le h1 h2
  rw [hcum]

theorem c7_reproducibility_amended_witness :
    (∀ k, k < 1 * 21 * 1 →
      NpRandomState.stream ⟨fun _ => 1, 0⟩ (NpRandomState.idx ⟨fun _ => 1, 0⟩ + k) =
      NpRandomState.stream ⟨fun _ => 1, 5⟩ (NpRandomState.idx ⟨fun _ => 1, 5⟩ + k)) ∧
    (monte_carlo_simulation 1 1 1 none ⟨fun _ => 1, 0⟩).1 =
    (monte_carlo_simulation 1 1 1 none ⟨fun _ => 1, 5⟩).1 :=
  ⟨fun _ _ => rfl,
    c7_reproducibility_amended 1 1 1 none ⟨fun _ => 1, 0⟩ ⟨fun _ => 1, 5⟩ (fun _ _ => rfl)⟩

/-- C8: the rebalance branch of `monte_carlo_simulation` performs the same
multiplication as the non-rebalance branch, so the whole simulation output
(value histories, final values, and generator state) is unchanged by any
`rebalance_months`; and `simulate_scenario`'s rebalance step multiplies the
current value by the sum of the allocation weights, so it leaves the value
unchanged whenever the weights sum to `1`. -/
theorem c8_rebalance_identity (initial_investment : ℚ) (months num_simulations : ℕ)
    (rebalance_months : Option ℕ) (g : NpRandomState) (ws : List ℚ) (v : ℚ)
    (hw : ws.sum = 1) :
    monte_carlo_simulation initial_investment months num_simulations rebalance_months g =
      monte_carlo_simulation initial_investment months num_simulations none g ∧
    scenario_rebalance_step ws v = v := by
  constructor
  · simp only [monte_carlo_simulation]
    have hcum : (List.range num_simulations).map
        (fun sim => mcCumulative rebalance_months
          (fun d => g.stream (g.idx + (d * num_simulations + sim)))
          initial_investment (months * 21)) =
        (List.range num_simulations).map
        (fun sim => mcCumulative none
          (fun d => g.stream (g.idx + (d * num_simulations + sim)))
          initial_investment (months * 21)) := by
      apply List.map_congr_left
      intro sim _
      exact mcCumulative_rm_irrelevant _ _ _ _
    rw [hcum]
  · unfold scenario_rebalance_step
    rw [sum_map_mul, hw, one_mul]

theorem c8_rebalance_identity_witness :
    ([1 / 2, 1 / 2] : List ℚ).sum = 1 ∧
    (monte_carlo_simulation 1 1 1 (some 12) ⟨fun _ => 0, 0⟩ =
       monte_carlo_simulation 1 1 1 none ⟨fun _ => 0, 0⟩ ∧
     scenario_rebalance_step [1 / 2, 1 / 2] 7 = 7) :=
  ⟨by norm_num,
    c8_rebalance_identity 1 1 1 (some 12) ⟨fun _ => 0, 0⟩ [1 / 2, 1 / 2] 7 (by norm_num)⟩

/-- C9 counterexample: for the trajectory `[1, 2, 1]` the cumulative series
is `[2, 1]`, the running-maximum-normalized decline is `1/2`, but the code
returns `50` — one hundred times the decline fraction, not the fraction the
claim (and the spec's `-> fraction` signature) states. -/
theorem c9_max_drawdown_cex :
    max_drawdown [1, 2, 1] = 50 ∧
    max_decline_fraction [1, 2, 1] = 1 / 2 ∧
    (50 : ℚ) ≠ 1 / 2 := by
  refine ⟨by decide, by decide, by decide⟩

/-- C9 (amended): for every strictly monotonically increasing positive
value trajectory of length at least 2, the computed maximum drawdown is
exactly `0`; and in general `max_drawdown` equals `100` times the maximum
peak-to-trough decline fraction of the running-maximum-normalized
cumulative value series (it is reported as a percentage). -/
theorem c9_max_drawdown_amended (pv qv : List ℚ) (h2 : 2 ≤ pv.length)
    (hpos : ∀ x ∈ pv, 0 < x) (hmono : List.Chain' (fun a b : ℚ => a < b) pv) :
    max_drawdown pv = 0 ∧ max_drawdown qv = 100 * max_decline_fraction qv := by
  constructor
  · have hdr : ∀ r ∈ daily_returns pv, 0 < r := daily_returns_pos pv hpos hmono
    have hfs1 : ∀ x ∈ (daily_returns pv).map (fun r => 1 + r), 1 < x := by
      intro x hx
      rcases List.mem_map.mp hx with ⟨r, hr, rfl⟩
      have := hdr r hr
      linarith
    have hchain : List.Chain (fun p q : ℚ => p ≤ q) 1 (cumulative_returns pv) :=
      np_cumprod_from_chain _ 1 one_pos hfs1
    have hrm : running_max (cumulative_returns pv) = cumulative_returns pv := by
      cases hc : cumulative_returns pv with
      | nil => rfl
      | cons c0 ct =>
        rw [hc] at hchain
        show c0 :: run_max_from c0 ct = c0 :: ct
        rw [run_max_from_of_chain ct c0 (List.chain_cons.mp hchain).2]
    have hzip : drawdowns pv = (cumulative_returns pv).map (fun x => (x - x) / x) := by
      unfold drawdowns
      rw [hrm, List.zipWith_same]
    have hall0 : ∀ x ∈ drawdowns pv, x = 0 := by
      rw [hzip]
      intro x hx
      rcases List.mem_map.mp hx with ⟨c, _, rfl⟩
      simp
    have hlen : drawdowns pv ≠ [] := by
      rw [hzip]
      have hlen1 : 0 < (daily_returns pv).length := by
        unfold daily_returns
        rw [List.length_zipWith, List.length_tail]
        omega
      have hlen2 : 0 < (cumulative_returns pv).length := by
        unfold cumulative_returns
        rw [np_cumprod_from_length, List.length_map]
        exact hlen1
      intro hcon
      rw [← List.length_eq_zero, List.length_map] at hcon
      omega
    unfold max_drawdown
    rw [listMax_zero _ hall0 hlen, zero_mul]
  · unfold max_drawdown max_decline_fraction
    ring

theorem c9_max_drawdown_amended_witness :
    2 ≤ ([1, 2, 3] : List ℚ).length ∧ (∀ x ∈ ([1, 2, 3] : List ℚ), 0 < x) ∧
    List.Chain' (fun a b : ℚ => a < b) [1, 2, 3] ∧
    (max_drawdown [1, 2, 3] = 0 ∧
     max_drawdown [1, 2, 1] = 100 * max_decline_fraction [1, 2, 1]) :=
  ⟨by decide, by decide, by norm_num [List.chain'_cons],
    c9_max_drawdown_amended [1, 2, 3] [1, 2, 1] (by decide) (by decide)
      (by norm_num [List.chain'_cons])⟩

/-- C10: with positive total portfolio value and a tolerance in (0,1), the
Threshold policy's `check_threshold` returns `True` exactly when some asset's
current weight (its value over the total value) deviates from its target
weight by strictly more than the tolerance in absolute value. -/
theorem c10_check_threshold (assets : List AssetPos) (threshold : ℚ)
    (htot : 0 < total_value assets) (ht0 : 0 < threshold) (ht1 : threshold < 1) :
    (check_threshold assets threshold = true ↔
      ∃ a ∈ assets, threshold < |a.holding * a.price / total_value assets - a.target|) := by
  unfold check_threshold
  simp only [List.any_eq_true, decide_eq_true_eq]

theorem c10_check_threshold_witness :
    0 < total_value [⟨7, 1, 3 / 5⟩, ⟨3, 1, 2 / 5⟩] ∧ (0 : ℚ) < 1 / 20 ∧ (1 / 20 : ℚ) < 1 ∧
    (check_threshold [⟨7, 1, 3 / 5⟩, ⟨3, 1, 2 / 5⟩] (1 / 20) = true ↔
      ∃ a ∈ ([⟨7, 1, 3 / 5⟩, ⟨3, 1, 2 / 5⟩] : List AssetPos),
        1 / 20 < |a.holding * a.price / total_value [⟨7, 1, 3 / 5⟩, ⟨3, 1, 2 / 5⟩] - a.target|) :=
  ⟨by decide, by norm_num, by norm_num,
    c10_check_threshold [⟨7, 1, 3 / 5⟩, ⟨3, 1, 2 / 5⟩] (1 / 20) (by decide) (by norm_num) (by norm_num)⟩

theorem c5_cvar_ge_var_witness :
    ([1, 2, 3] : List ℚ) ≠ [] ∧ (0 : ℚ) < 9 / 10 ∧ (9 / 10 : ℚ) < 1 ∧
    cvar_values [1, 2, 3] (9 / 10) ≠ [] ∧
    value_at_risk [1, 2, 3] 2 (9 / 10) ≤ conditional_value_at_risk [1, 2, 3] 2 (9 / 10) :=
  ⟨by decide, by norm_num, by norm_num, by decide,
    c5_cvar_ge_var [1, 2, 3] 2 (9 / 10) (by decide) (by norm_num) (by norm_num) (by decide)⟩

end CultivationData
